import Mathlib

/-!
Verification of the flail bitmap/file core against its specification.

The repository header `src/libe2fs-sys/wrapper.h` declares the data model:
`ext2fs_struct_generic_bitmap_64` (with `start`, `end`, `real_end`,
`description`, an `ext2_bitmap_ops` dispatch table, `base_error_code`) and
the file handles `ext2_file_64` / `real_ext2_file`.  The implementations of
the operations in the `ext2_bitmap_ops` table and of the file operations are
not part of the repository sources; they are modelled here from the
specification's words, as noted on each definition.
-/

namespace Flail

/-- Error kinds named by the specification's error-handling design. -/
inductive BmErr where
  | InvalidRange
  | RangeError
  | OutOfMemory
  | NotFound
  | TypeMismatch
  | IOError
  deriving DecidableEq

/-- Modelled from the spec: the bit-store state of a 64-bit generic bitmap
(`ext2fs_struct_generic_bitmap_64` in `wrapper.h` declares `start`, `end`,
`real_end` and opaque private bit storage; the storage behaviour is missing
from the sources).  The addressable inclusive range is `[start, end_]`,
`real_end` is the pre-allocated slack boundary, and `bits` gives the state of
every position. -/
structure Bitmap where
  start : Nat
  end_ : Nat
  real_end : Nat
  bits : Nat → Bool

/-- A position is valid when it lies in the inclusive range `[start, end]`. -/
def Bitmap.inRange (bm : Bitmap) (pos : Nat) : Prop :=
  bm.start ≤ pos ∧ pos ≤ bm.end_

instance (bm : Bitmap) (pos : Nat) : Decidable (bm.inRange pos) := by
  unfold Bitmap.inRange
  infer_instance

/-- Modelled from the spec: `set(pos, value)` writes one bit, leaving every
other position unchanged (the concrete `ext2_bitmap_ops` implementations are
missing from the sources). -/
def Bitmap.setBit (bm : Bitmap) (pos : Nat) (v : Bool) : Bitmap :=
  ⟨bm.start, bm.end_, bm.real_end, fun p => if p = pos then v else bm.bits p⟩

/-- Modelled from the spec: `test_bmap` returns the current bit value without
mutation, so it is modelled as returning the value together with the
(unchanged) bitmap state. -/
def Bitmap.test_bmap (bm : Bitmap) (pos : Nat) : Bool × Bitmap :=
  (bm.bits pos, bm)

/-- Modelled from the spec: `mark_bmap` sets the bit at `pos` and returns the
prior bit value (enabling idempotence checks by callers). -/
def Bitmap.mark_bmap (bm : Bitmap) (pos : Nat) : Bool × Bitmap :=
  (bm.bits pos, bm.setBit pos true)

/-- Modelled from the spec: `unmark_bmap` clears the bit at `pos` and returns
the prior bit value. -/
def Bitmap.unmark_bmap (bm : Bitmap) (pos : Nat) : Bool × Bitmap :=
  (bm.bits pos, bm.setBit pos false)

/-- Modelled from the spec: `mark_bmap_extent` marks `num` consecutive
positions starting at `pos`, as a bulk update of the bit storage. -/
def Bitmap.mark_bmap_extent (bm : Bitmap) (pos : Nat) (num : Nat) : Bitmap :=
  ⟨bm.start, bm.end_, bm.real_end,
   fun p => if pos ≤ p ∧ p < pos + num then true else bm.bits p⟩

/-- Modelled from the spec: `unmark_bmap_extent` clears `num` consecutive
positions starting at `pos`, as a bulk update of the bit storage. -/
def Bitmap.unmark_bmap_extent (bm : Bitmap) (pos : Nat) (num : Nat) : Bitmap :=
  ⟨bm.start, bm.end_, bm.real_end,
   fun p => if pos ≤ p ∧ p < pos + num then false else bm.bits p⟩

/-- Repeated single-bit marks: `num` sequential `mark_bmap` calls at
`pos, pos+1, …, pos+num-1`.  This is the reference semantics the spec says
the bulk extent operation must agree with. -/
def Bitmap.markSeq (bm : Bitmap) (pos : Nat) (num : Nat) : Bitmap :=
  (List.range num).foldl (fun b i => (b.mark_bmap (pos + i)).2) bm

/-- Repeated single-bit unmarks: `num` sequential `unmark_bmap` calls at
`pos, pos+1, …, pos+num-1`. -/
def Bitmap.unmarkSeq (bm : Bitmap) (pos : Nat) (num : Nat) : Bitmap :=
  (List.range num).foldl (fun b i => (b.unmark_bmap (pos + i)).2) bm

/-- Whether all `num` bits starting at `pos` are set. -/
def Bitmap.extentAllSet (bm : Bitmap) (pos : Nat) (num : Nat) : Bool :=
  (List.range num).all (fun i => bm.bits (pos + i))

/-- Modelled from the spec: `test_clear_bmap_extent` tests whether the extent
is fully set and, if so, clears it, returning whether the extent was fully
set beforehand; otherwise the bitmap is left unchanged. -/
def Bitmap.test_clear_bmap_extent (bm : Bitmap) (pos : Nat) (num : Nat) :
    Bool × Bitmap :=
  if bm.extentAllSet pos num then (true, bm.unmark_bmap_extent pos num)
  else (false, bm)

/-- Modelled from the spec: `set_bmap_range` bulk-imports `num` bits starting
at position `s` from the data vector `data` (bit `i` of `data` goes to
position `s + i`), equivalent to `num` sequential single-bit writes. -/
def Bitmap.set_bmap_range (bm : Bitmap) (s : Nat) (num : Nat)
    (data : List Bool) : Bitmap :=
  ⟨bm.start, bm.end_, bm.real_end,
   fun p => if s ≤ p ∧ p < s + num then data.getD (p - s) false else bm.bits p⟩

/-- Modelled from the spec: `get_bmap_range` bulk-exports `num` bits starting
at position `s`. -/
def Bitmap.get_bmap_range (bm : Bitmap) (s : Nat) (num : Nat) : List Bool :=
  (List.range num).map (fun i => bm.bits (s + i))

/-- Modelled from the spec: `resize_bmap(new_end, new_real_end)` requires
`new_end <= new_real_end`, failing with `InvalidRange` (store unchanged) when
the constraint is violated; otherwise it preserves every position in
`[start, min(end, new_end)]`, zero-initializes newly exposed positions, and
on allocation failure (`allocOk = false`) fails with `OutOfMemory`, leaving
the store exactly in its prior state.  The allocation outcome is an explicit
oracle parameter because memory allocation is outside the pure model. -/
def Bitmap.resize_bmap (bm : Bitmap) (new_end : Nat) (new_real_end : Nat)
    (allocOk : Bool) : Bitmap × Option BmErr :=
  if new_end ≤ new_real_end then
    if allocOk then
      (⟨bm.start, new_end, new_real_end,
        fun p => if p ≤ min bm.end_ new_end then bm.bits p else false⟩, none)
    else (bm, some BmErr.OutOfMemory)
  else (bm, some BmErr.InvalidRange)

/-- Linear scan of `n` positions starting at `s`, returning the first
position holding a zero bit. -/
def findFirstZeroAux (bm : Bitmap) (s : Nat) : Nat → Except BmErr Nat
  | 0 => Except.error BmErr.NotFound
  | n + 1 =>
    if bm.bits s = false then Except.ok s else findFirstZeroAux bm (s + 1) n

/-- Modelled from the spec: the generic fallback `find_first_zero` scans the
inclusive range `[s, e]` and returns the first position holding a zero bit,
or fails with `NotFound` when every bit in the range is set. -/
def Bitmap.find_first_zero (bm : Bitmap) (s : Nat) (e : Nat) :
    Except BmErr Nat :=
  findFirstZeroAux bm s (e + 1 - s)

/-- Modelled from the spec: an inode metadata snapshot as the file layer uses
it — a size and a block map sending each logical block number to its physical
block, with `none` meaning an unallocated hole. -/
structure Inode where
  size : Nat
  blockmap : Nat → Option Nat

/-- Modelled from the spec: the filesystem context as consumed by the file
layer — block size, the block-allocation bitmap, and disk contents addressed
as physical block number and byte offset. -/
structure Filsys where
  blocksize : Nat
  block_bitmap : Bitmap
  disk : Nat → Nat → Nat

/-- The file-handle state, following the fields of `ext2_file_64` in
`wrapper.h` (`ino`, `inode`, `flags` — here the dirty flag —, `pos`,
`blockno`, `physblock`, `buf`). -/
structure File where
  ino : Nat
  inode : Inode
  dirty : Bool
  pos : Nat
  blockno : Nat
  physblock : Nat
  buf : List Nat

/-- Modelled from the spec: reading the byte at logical offset `off` resolves
the covering block through the inode's block map; a hole reads as zero. -/
def readByte (fs : Filsys) (ino : Inode) (off : Nat) : Nat :=
  match ino.blockmap (off / fs.blocksize) with
  | none => 0
  | some pb => fs.disk pb (off % fs.blocksize)

/-- Modelled from the spec: `read(count)` copies at most `count` bytes
starting at the current position, truncated at end-of-file (it returns fewer
than `count` bytes at EOF without error, signalling via the returned byte
count); holes read as zero-fill without allocation; the position advances
by the number of bytes returned, and the filesystem state — in particular
the block-allocation bitmap — is left untouched. -/
def ext2fs_file_read (fs : Filsys) (f : File) (count : Nat) :
    List Nat × File × Filsys :=
  ((List.range (min count (f.inode.size - f.pos))).map
     (fun i => readByte fs f.inode (f.pos + i)),
   ⟨f.ino, f.inode, f.dirty, f.pos + min count (f.inode.size - f.pos),
    f.blockno, f.physblock, f.buf⟩,
   fs)

/-- Modelled from the spec: `seek` updates `pos` without resolving blocks
eagerly and without touching the filesystem state. -/
def ext2fs_file_llseek (f : File) (offset : Nat) : File :=
  ⟨f.ino, f.inode, f.dirty, offset, f.blockno, f.physblock, f.buf⟩

/-- Write one block of bytes to the disk at physical block `pb`. -/
def writeBlock (fs : Filsys) (pb : Nat) (data : List Nat) : Filsys :=
  ⟨fs.blocksize, fs.block_bitmap,
   fun b o => if b = pb then data.getD o 0 else fs.disk b o⟩

/-- Modelled from the spec: `flush()` — if the buffer is dirty, persist `buf`
to `physblock` and clear the dirty flag; if the underlying block write fails
(`writeOk = false`), fail with `IOError` leaving the dirty flag set and the
state unchanged.  The write outcome is an explicit oracle parameter because
the block-write primitive is an external collaborator. -/
def ext2fs_file_flush (fs : Filsys) (f : File) (writeOk : Bool) :
    (Filsys × File) × Option BmErr :=
  if f.dirty then
    if writeOk then
      ((writeBlock fs f.physblock f.buf,
        ⟨f.ino, f.inode, false, f.pos, f.blockno, f.physblock, f.buf⟩), none)
    else ((fs, f), some BmErr.IOError)
  else ((fs, f), none)

/-- The field list (name, C type) of `struct ext2_file_64`, transcribed from
`src/libe2fs-sys/wrapper.h` lines 32-43. -/
def ext2_file_64_fields : List (String × String) :=
  [("magic", "errcode_t"),
   ("fs", "ext2_filsys"),
   ("ino", "ext2_ino_t"),
   ("inode", "struct ext2_inode"),
   ("flags", "int"),
   ("pos", "__u64"),
   ("blockno", "blk64_t"),
   ("physblock", "blk64_t"),
   ("buf", "char *")]

/-- The field list (name, C type) of `struct real_ext2_file`, transcribed
from `src/libe2fs-sys/wrapper.h` lines 85-96. -/
def real_ext2_file_fields : List (String × String) :=
  [("magic", "errcode_t"),
   ("fs", "ext2_filsys"),
   ("ino", "ext2_ino_t"),
   ("inode", "struct ext2_inode"),
   ("flags", "int"),
   ("pos", "__u64"),
   ("blockno", "blk64_t"),
   ("physblock", "blk64_t"),
   ("buf", "char *")]

/-- A sample bitmap over `[0, 9]` with slack up to 15, bit 3 set. -/
def bm0 : Bitmap := ⟨0, 9, 15, fun p => p == 3⟩

/-- A sample bitmap over `[0, 9]` with every bit set except position 3. -/
def bmOneZero : Bitmap := ⟨0, 9, 15, fun p => p != 3⟩

/-- A sample bitmap over `[0, 9]` with every bit set. -/
def bmAll : Bitmap := ⟨0, 9, 15, fun _ => true⟩

/-- A sample filesystem with 1024-byte blocks, non-zero disk contents. -/
def fs0 : Filsys := ⟨1024, bm0, fun _ _ => 7⟩

/-- A sample sparse inode: only logical blocks 0-3 are allocated; every
later logical block is a hole. -/
def sparseInode : Inode := ⟨20000000, fun b => if b < 4 then some (b + 100) else none⟩

/-- A sample clean file handle on the sparse inode. -/
def f0 : File := ⟨2, sparseInode, false, 0, 0, 0, []⟩

/-- A sample dirty file handle whose buffer holds unflushed bytes destined
for physical block 5. -/
def f2 : File := ⟨2, sparseInode, true, 0, 0, 5, [1, 2, 3]⟩

/-- C1: for every bitmap and every valid position `pos` in `[start, end]`,
`mark(pos)` and `unmark(pos)` return the prior bit value at `pos` (mark
leaves the bit set, unmark leaves it clear), and `test(pos)` returns the
current bit value without mutating any bit. -/
theorem mark_unmark_test_single (bm : Bitmap) (pos : Nat)
    (h1 : bm.start ≤ pos) (h2 : pos ≤ bm.end_) :
    (bm.mark_bmap pos).1 = bm.bits pos ∧
    ((bm.mark_bmap pos).2).bits pos = true ∧
    (bm.unmark_bmap pos).1 = bm.bits pos ∧
    ((bm.unmark_bmap pos).2).bits pos = false ∧
    (bm.test_bmap pos).1 = bm.bits pos ∧
    (bm.test_bmap pos).2 = bm := by
  refine ⟨rfl, ?_, rfl, ?_, rfl, rfl⟩ <;>
    simp [Bitmap.mark_bmap, Bitmap.unmark_bmap, Bitmap.setBit]

/-- Witness for C1 at the sample bitmap `bm0` and position 3. -/
theorem mark_unmark_test_single_witness :
    (bm0.mark_bmap 3).1 = bm0.bits 3 ∧
    ((bm0.mark_bmap 3).2).bits 3 = true ∧
    (bm0.unmark_bmap 3).1 = bm0.bits 3 ∧
    ((bm0.unmark_bmap 3).2).bits 3 = false ∧
    (bm0.test_bmap 3).1 = bm0.bits 3 ∧
    (bm0.test_bmap 3).2 = bm0 :=
  mark_unmark_test_single bm0 3 (by decide) (by decide)

/-- C2: for every bitmap and every valid `pos` in `[start, end]`,
`set(pos, true)` followed by `test(pos)` returns `true`, and
`set(pos, false)` followed by `test(pos)` returns `false`; setting an
already-set bit is a no-op (idempotence of mark/unmark). -/
theorem set_then_test (bm : Bitmap) (pos : Nat)
    (h1 : bm.start ≤ pos) (h2 : pos ≤ bm.end_) :
    ((bm.setBit pos true).test_bmap pos).1 = true ∧
    ((bm.setBit pos false).test_bmap pos).1 = false ∧
    (bm.bits pos = true → (bm.mark_bmap pos).2 = bm) ∧
    (bm.bits pos = false → (bm.unmark_bmap pos).2 = bm) := by
  refine ⟨?_, ?_, ?_, ?_⟩
  · simp [Bitmap.test_bmap, Bitmap.setBit]
  · simp [Bitmap.test_bmap, Bitmap.setBit]
  · intro hset
    cases bm with
    | mk s e r f =>
      simp only [Bitmap.mark_bmap, Bitmap.setBit, Bitmap.mk.injEq, true_and]
      funext p
      by_cases hp : p = pos
      · subst hp; simpa using hset.symm
      · rw [if_neg hp]
  · intro hclear
    cases bm with
    | mk s e r f =>
      simp only [Bitmap.unmark_bmap, Bitmap.setBit, Bitmap.mk.injEq, true_and]
      funext p
      by_cases hp : p = pos
      · subst hp; simpa using hclear.symm
      · rw [if_neg hp]

/-- Witness for C2 at the sample bitmap `bm0` and position 3 (which is
already set in `bm0`). -/
theorem set_then_test_witness :
    ((bm0.setBit 3 true).test_bmap 3).1 = true ∧
    ((bm0.setBit 3 false).test_bmap 3).1 = false ∧
    (bm0.bits 3 = true → (bm0.mark_bmap 3).2 = bm0) ∧
    (bm0.bits 3 = false → (bm0.unmark_bmap 3).2 = bm0) :=
  set_then_test bm0 3 (by decide) (by decide)

/-- Marking an extent leaves every bit of that extent set. -/
theorem extentAllSet_mark_extent (bm : Bitmap) (pos num : Nat) :
    (bm.mark_bmap_extent pos num).extentAllSet pos num = true := by
  unfold Bitmap.extentAllSet Bitmap.mark_bmap_extent
  rw [List.all_eq_true]
  intro i hi
  rw [List.mem_range] at hi
  simp only
  rw [if_pos ⟨Nat.le_add_right _ _, by omega⟩]

/-- C3: for every bitmap and in-range extent `(pos, count)`,
`test_clear_extent(pos, count)` returns `true` iff all `count` bits starting
at `pos` were set beforehand, and in that case clears them all (otherwise
the bitmap is unchanged); in particular `mark_extent` followed by
`test_clear_extent` on the same extent returns `true` and leaves the extent
fully cleared. -/
theorem test_clear_extent_spec (bm : Bitmap) (pos num : Nat)
    (h1 : bm.start ≤ pos) (h2 : pos + num ≤ bm.end_ + 1) :
    ((bm.test_clear_bmap_extent pos num).1 = true ↔
      bm.extentAllSet pos num = true) ∧
    (bm.extentAllSet pos num = true →
      ∀ i, i < num →
        ((bm.test_clear_bmap_extent pos num).2).bits (pos + i) = false) ∧
    (bm.extentAllSet pos num = false →
      (bm.test_clear_bmap_extent pos num).2 = bm) ∧
    ((bm.mark_bmap_extent pos num).test_clear_bmap_extent pos num).1 = true ∧
    (∀ i, i < num →
      (((bm.mark_bmap_extent pos num).test_clear_bmap_extent pos num).2).bits
        (pos + i) = false) := by
  have hall := extentAllSet_mark_extent bm pos num
  refine ⟨?_, ?_, ?_, ?_, ?_⟩
  · by_cases h : bm.extentAllSet pos num = true
    · simp [Bitmap.test_clear_bmap_extent, h]
    · simp [Bitmap.test_clear_bmap_extent, h]
  · intro hset i hi
    unfold Bitmap.test_clear_bmap_extent
    rw [if_pos hset]
    show (bm.unmark_bmap_extent pos num).bits (pos + i) = false
    unfold Bitmap.unmark_bmap_extent
    simp only
    rw [if_pos ⟨Nat.le_add_right _ _, by omega⟩]
  · intro hclear
    unfold Bitmap.test_clear_bmap_extent
    rw [if_neg]
    rw [hclear]
    exact Bool.false_ne_true
  · unfold Bitmap.test_clear_bmap_extent
    rw [if_pos hall]
  · intro i hi
    unfold Bitmap.test_clear_bmap_extent
    rw [if_pos hall]
    show ((bm.mark_bmap_extent pos num).unmark_bmap_extent pos num).bits
      (pos + i) = false
    unfold Bitmap.unmark_bmap_extent
    simp only
    rw [if_pos ⟨Nat.le_add_right _ _, by omega⟩]

/-- Witness for C3 at the all-set sample bitmap `bmAll` and extent (0, 2). -/
theorem test_clear_extent_spec_witness :
    ((bmAll.test_clear_bmap_extent 0 2).1 = true ↔
      bmAll.extentAllSet 0 2 = true) ∧
    ((bmAll.mark_bmap_extent 0 2).test_clear_bmap_extent 0 2).1 = true ∧
    (((bmAll.mark_bmap_extent 0 2).test_clear_bmap_extent 0 2).2).bits
      (0 + 1) = false :=
  ⟨(test_clear_extent_spec bmAll 0 2 (by decide) (by decide)).1,
   (test_clear_extent_spec bmAll 0 2 (by decide) (by decide)).2.2.2.1,
   (test_clear_extent_spec bmAll 0 2 (by decide) (by decide)).2.2.2.2 1
     (by decide)⟩

/-- C4: under the spec's resize constraint `new_end <= new_real_end`,
`resize(new_end, new_real_end)` preserves the bit value of every position in
`[start, min(old_end, new_end)]`; positions newly exposed when
`new_end > old_end` read as zero; and if resize fails with `OutOfMemory`
(allocation oracle false) the store is left exactly in its prior valid state
(strong exception safety). -/
theorem resize_preserves (bm : Bitmap) (new_end new_real_end : Nat)
    (hc : new_end ≤ new_real_end) :
    (∀ p, bm.start ≤ p → p ≤ min bm.end_ new_end →
      ((bm.resize_bmap new_end new_real_end true).1).bits p = bm.bits p) ∧
    (∀ p, bm.end_ < p → p ≤ new_end →
      ((bm.resize_bmap new_end new_real_end true).1).bits p = false) ∧
    bm.resize_bmap new_end new_real_end false =
      (bm, some BmErr.OutOfMemory) := by
  refine ⟨?_, ?_, ?_⟩
  · intro p hp1 hp2
    unfold Bitmap.resize_bmap
    rw [if_pos hc]
    simp only [if_true]
    rw [if_pos hp2]
  · intro p hp1 hp2
    unfold Bitmap.resize_bmap
    rw [if_pos hc]
    simp only [if_true]
    rw [if_neg]
    intro h
    exact absurd (le_trans h (Nat.min_le_left _ _)) (by omega)
  · unfold Bitmap.resize_bmap
    rw [if_pos hc]
    simp

/-- Witness for C4 at the sample bitmap `bm0`, growing its end from 9
to 12 with real end 20. -/
theorem resize_preserves_witness :
    ((bm0.resize_bmap 12 20 true).1).bits 3 = bm0.bits 3 ∧
    ((bm0.resize_bmap 12 20 true).1).bits 11 = false ∧
    bm0.resize_bmap 12 20 false = (bm0, some BmErr.OutOfMemory) :=
  ⟨(resize_preserves bm0 12 20 (by decide)).1 3 (by decide) (by decide),
   (resize_preserves bm0 12 20 (by decide)).2.1 11 (by decide) (by decide),
   (resize_preserves bm0 12 20 (by decide)).2.2⟩

/-- Peeling the last of `n + 1` sequential single-bit marks. -/
theorem markSeq_succ (bm : Bitmap) (pos n : Nat) :
    bm.markSeq pos (n + 1) = (bm.markSeq pos n).setBit (pos + n) true := by
  unfold Bitmap.markSeq
  rw [List.range_succ, List.foldl_append]
  rfl

/-- Peeling the last of `n + 1` sequential single-bit unmarks. -/
theorem unmarkSeq_succ (bm : Bitmap) (pos n : Nat) :
    bm.unmarkSeq pos (n + 1) = (bm.unmarkSeq pos n).setBit (pos + n) false := by
  unfold Bitmap.unmarkSeq
  rw [List.range_succ, List.foldl_append]
  rfl

/-- Sequential single-bit marks produce the same bitmap as the bulk extent
mark. -/
theorem markSeq_eq_mark_extent (bm : Bitmap) (pos : Nat) :
    ∀ num, bm.markSeq pos num = bm.mark_bmap_extent pos num := by
  intro num
  induction num with
  | zero =>
    show bm = _
    cases bm with
    | mk s e r f =>
      unfold Bitmap.mark_bmap_extent
      simp only [Bitmap.mk.injEq, true_and]
      funext p
      rw [if_neg (by omega)]
  | succ n ih =>
    rw [markSeq_succ, ih]
    cases bm with
    | mk s e r f =>
      unfold Bitmap.mark_bmap_extent Bitmap.setBit
      simp only [Bitmap.mk.injEq, true_and]
      funext p
      by_cases hc : p = pos + n
      · subst hc
        rw [if_pos rfl, if_pos (by omega)]
      · rw [if_neg hc]
        by_cases hd : pos ≤ p ∧ p < pos + n
        · rw [if_pos hd, if_pos (by omega)]
        · rw [if_neg hd, if_neg (by omega)]

/-- Sequential single-bit unmarks produce the same bitmap as the bulk extent
unmark. -/
theorem unmarkSeq_eq_unmark_extent (bm : Bitmap) (pos : Nat) :
    ∀ num, bm.unmarkSeq pos num = bm.unmark_bmap_extent pos num := by
  intro num
  induction num with
  | zero =>
    show bm = _
    cases bm with
    | mk s e r f =>
      unfold Bitmap.unmark_bmap_extent
      simp only [Bitmap.mk.injEq, true_and]
      funext p
      rw [if_neg (by omega)]
  | succ n ih =>
    rw [unmarkSeq_succ, ih]
    cases bm with
    | mk s e r f =>
      unfold Bitmap.unmark_bmap_extent Bitmap.setBit
      simp only [Bitmap.mk.injEq, true_and]
      funext p
      by_cases hc : p = pos + n
      · subst hc
        rw [if_pos rfl, if_pos (by omega)]
      · rw [if_neg hc]
        by_cases hd : pos ≤ p ∧ p < pos + n
        · rw [if_pos hd, if_pos (by omega)]
        · rw [if_neg hd, if_neg (by omega)]

/-- C7: for every bitmap and every in-range extent `(pos, count)`,
`mark_extent(pos, count)` and `unmark_extent(pos, count)` produce exactly the
same final bitmap state as `count` repeated single-bit `mark(pos + i)` /
`unmark(pos + i)` calls for `i` in `[0, count)` (and, by their types, return
only the resulting state — side effect only, no value). -/
theorem extent_eq_repeated_single (bm : Bitmap) (pos num : Nat)
    (h1 : bm.start ≤ pos) (h2 : pos + num ≤ bm.end_ + 1) :
    bm.mark_bmap_extent pos num = bm.markSeq pos num ∧
    bm.unmark_bmap_extent pos num = bm.unmarkSeq pos num :=
  ⟨(markSeq_eq_mark_extent bm pos num).symm,
   (unmarkSeq_eq_unmark_extent bm pos num).symm⟩

/-- Witness for C7 at the sample bitmap `bm0` and extent (2, 4). -/
theorem extent_eq_repeated_single_witness :
    bm0.mark_bmap_extent 2 4 = bm0.markSeq 2 4 ∧
    bm0.unmark_bmap_extent 2 4 = bm0.unmarkSeq 2 4 :=
  extent_eq_repeated_single bm0 2 4 (by decide) (by decide)

/-- C5: for every bitmap, every in-range start and count, and every bit
vector `data` of length `count`, `set_range(start, count, data)` followed by
`get_range(start, count)` returns `data` exactly (round-trip identity of
bulk import/export). -/
theorem set_get_range_roundtrip (bm : Bitmap) (s num : Nat) (data : List Bool)
    (hlen : data.length = num) (h1 : bm.start ≤ s)
    (h2 : s + num ≤ bm.end_ + 1) :
    (bm.set_bmap_range s num data).get_bmap_range s num = data := by
  subst hlen
  apply List.ext_getElem
  · simp [Bitmap.get_bmap_range]
  · intro i hi1 hi2
    unfold Bitmap.get_bmap_range Bitmap.set_bmap_range
    simp only [List.getElem_map, List.getElem_range]
    have hi : i < data.length := by
      simpa [Bitmap.get_bmap_range] using hi1
    rw [if_pos ⟨Nat.le_add_right _ _, by omega⟩, Nat.add_sub_cancel_left,
      List.getD_eq_getElem _ _ hi]

/-- Witness for C5 at the sample bitmap `bm0`, writing three bits at
position 2. -/
theorem set_get_range_roundtrip_witness :
    (bm0.set_bmap_range 2 3 [true, false, true]).get_bmap_range 2 3 =
      [true, false, true] :=
  set_get_range_roundtrip bm0 2 3 [true, false, true] (by decide) (by decide)
    (by decide)

/-- The linear scan reports `NotFound` when every scanned bit is set. -/
theorem findFirstZeroAux_all_set (bm : Bitmap) :
    ∀ n s, (∀ q, s ≤ q → q < s + n → bm.bits q = true) →
      findFirstZeroAux bm s n = Except.error BmErr.NotFound := by
  intro n
  induction n with
  | zero => intro s _; rfl
  | succ m ih =>
    intro s h
    unfold findFirstZeroAux
    rw [if_neg]
    · exact ih (s + 1) (fun q hq1 hq2 => h q (by omega) (by omega))
    · simp [h s (le_refl s) (by omega)]

/-- The linear scan returns the first zero position it covers. -/
theorem findFirstZeroAux_first (bm : Bitmap) :
    ∀ n s P, s ≤ P → P < s + n → bm.bits P = false →
      (∀ q, s ≤ q → q < P → bm.bits q = true) →
      findFirstZeroAux bm s n = Except.ok P := by
  intro n
  induction n with
  | zero =>
    intro s P h1 h2 _ _
    exact absurd h2 (by omega)
  | succ m ih =>
    intro s P h1 h2 h3 h4
    unfold findFirstZeroAux
    by_cases hs : s = P
    · subst hs
      rw [if_pos h3]
    · rw [if_neg]
      · exact ih (s + 1) P (by omega) (by omega) h3
          (fun q hq1 hq2 => h4 q (by omega) hq2)
      · simp [h4 s (le_refl s) (by omega)]

/-- C6: `find_first_zero(start, end)` scans the inclusive range
`[start, end]` and returns the first position holding a zero bit; it fails
with `NotFound` when every bit in the range is set, and on a bitmap with
exactly one zero bit at in-range position `P` it returns `P`. -/
theorem find_first_zero_spec (bm : Bitmap) (s e : Nat) :
    ((∀ q, s ≤ q → q ≤ e → bm.bits q = true) →
      bm.find_first_zero s e = Except.error BmErr.NotFound) ∧
    (∀ P, s ≤ P → P ≤ e → bm.bits P = false →
      (∀ q, s ≤ q → q < P → bm.bits q = true) →
      bm.find_first_zero s e = Except.ok P) ∧
    (∀ P, s ≤ P → P ≤ e → bm.bits P = false →
      (∀ q, s ≤ q → q ≤ e → q ≠ P → bm.bits q = true) →
      bm.find_first_zero s e = Except.ok P) := by
  refine ⟨?_, ?_, ?_⟩
  · intro h
    exact findFirstZeroAux_all_set bm (e + 1 - s) s
      (fun q hq1 hq2 => h q hq1 (by omega))
  · intro P h1 h2 h3 h4
    exact findFirstZeroAux_first bm (e + 1 - s) s P h1 (by omega) h3 h4
  · intro P h1 h2 h3 h4
    exact findFirstZeroAux_first bm (e + 1 - s) s P h1 (by omega) h3
      (fun q hq1 hq2 => h4 q hq1 (by omega) (by omega))

/-- Witness for C6: the all-set sample bitmap yields `NotFound` on `[0, 9]`;
the sample bitmap whose only zero bit is at 3 yields 3. -/
theorem find_first_zero_spec_witness :
    bmAll.find_first_zero 0 9 = Except.error BmErr.NotFound ∧
    bmOneZero.find_first_zero 0 9 = Except.ok 3 :=
  ⟨(find_first_zero_spec bmAll 0 9).1 (fun q _ _ => rfl),
   (find_first_zero_spec bmOneZero 0 9).2.2 3 (by decide) (by decide)
     (by decide) (fun q hq1 hq2 hq3 => by simpa [bmOneZero] using hq3)⟩

/-- C8: reading while positioned inside a hole of the file (the read staying
within the inode's size, so end-of-file truncation does not shorten it)
returns zero-filled bytes, triggers no block allocation and changes no bit
of the allocation bitmap; in particular seeking to offset 10000000 on the
sample sparse file and reading 10 bytes returns 10 zero bytes without any
allocation. -/
theorem read_hole_zero_fill (fs : Filsys) (f : File) (count : Nat)
    (heof : f.pos + count ≤ f.inode.size)
    (hhole : ∀ i, i < count →
      f.inode.blockmap ((f.pos + i) / fs.blocksize) = none) :
    (ext2fs_file_read fs f count).1 = List.replicate count 0 ∧
    (ext2fs_file_read fs f count).2.2 = fs ∧
    ((ext2fs_file_read fs f count).2.2).block_bitmap = fs.block_bitmap := by
  have hmin : min count (f.inode.size - f.pos) = count :=
    Nat.min_eq_left (by omega)
  refine ⟨?_, rfl, rfl⟩
  unfold ext2fs_file_read
  rw [hmin]
  apply List.ext_getElem
  · simp
  · intro i hi1 hi2
    simp only [List.getElem_map, List.getElem_range, List.getElem_replicate]
    have hi : i < count := by simpa using hi1
    unfold readByte
    rw [hhole i hi]

/-- Witness for C8: seek to offset 10000000 on the sample sparse file and
read 10 bytes — ten zero bytes come back and the filesystem state (hence the
allocation bitmap) is unchanged. -/
theorem read_hole_zero_fill_witness :
    (ext2fs_file_read fs0 (ext2fs_file_llseek f0 10000000) 10).1 =
      List.replicate 10 0 ∧
    (ext2fs_file_read fs0 (ext2fs_file_llseek f0 10000000) 10).2.2 = fs0 ∧
    ((ext2fs_file_read fs0 (ext2fs_file_llseek f0 10000000) 10).2.2).block_bitmap =
      fs0.block_bitmap :=
  read_hole_zero_fill fs0 (ext2fs_file_llseek f0 10000000) 10 (by decide)
    (by decide)

/-- C9: flushing a dirty buffer persists `buf` to `physblock` and clears the
dirty flag on success; if the underlying block write fails, flush returns
`IOError` and leaves the state unchanged with the dirty flag still set, so a
subsequent flush after the fault clears succeeds and clears the dirty flag
(flush is retryable with no silent data loss). -/
theorem flush_retryable (fs : Filsys) (f : File) (hd : f.dirty = true) :
    ((ext2fs_file_flush fs f true).2 = none ∧
     ((ext2fs_file_flush fs f true).1.2).dirty = false ∧
     ∀ o, ((ext2fs_file_flush fs f true).1.1).disk f.physblock o =
       f.buf.getD o 0) ∧
    ((ext2fs_file_flush fs f false).2 = some BmErr.IOError ∧
     (ext2fs_file_flush fs f false).1 = (fs, f) ∧
     ((ext2fs_file_flush fs f false).1.2).dirty = true) ∧
    ((ext2fs_file_flush ((ext2fs_file_flush fs f false).1.1)
        ((ext2fs_file_flush fs f false).1.2) true).2 = none ∧
     ((ext2fs_file_flush ((ext2fs_file_flush fs f false).1.1)
        ((ext2fs_file_flush fs f false).1.2) true).1.2).dirty = false) := by
  refine ⟨⟨?_, ?_, ?_⟩, ⟨?_, ?_, ?_⟩, ?_, ?_⟩ <;>
    simp [ext2fs_file_flush, hd, writeBlock]

/-- Witness for C9 at the sample dirty file handle `f2`. -/
theorem flush_retryable_witness :
    (ext2fs_file_flush fs0 f2 true).2 = none ∧
    ((ext2fs_file_flush fs0 f2 true).1.2).dirty = false ∧
    ((ext2fs_file_flush fs0 f2 true).1.1).disk f2.physblock 0 =
      f2.buf.getD 0 0 ∧
    (ext2fs_file_flush fs0 f2 false).2 = some BmErr.IOError ∧
    ((ext2fs_file_flush fs0 f2 false).1.2).dirty = true :=
  ⟨(flush_retryable fs0 f2 rfl).1.1,
   (flush_retryable fs0 f2 rfl).1.2.1,
   (flush_retryable fs0 f2 rfl).1.2.2 0,
   (flush_retryable fs0 f2 rfl).2.1.1,
   (flush_retryable fs0 f2 rfl).2.1.2.2⟩

/-- C10: the two file-handle structure declarations `struct ext2_file_64`
and `struct real_ext2_file` in `wrapper.h` are field-for-field identical
(same field names, types and order: magic, fs, ino, inode, flags, pos,
blockno, physblock, buf). -/
theorem file_struct_fields_identical :
    ext2_file_64_fields = real_ext2_file_fields := rfl

end Flail
